import Mathlib

set_option maxRecDepth 10000

/-!
Verification of the vscode workspace-search subsystem (file walker, ripgrep
text-search driver and parser, result cache, batched collector) against its
design specification.  The walker and raw search service are embedded from
fileSearch.ts / rawSearchService.ts, the text-search driver and parser from
ripgrepTextSearch.ts.  Small utilities that live outside the provided
sources (vs/base/common/strings, the node path module) are modelled from
the specification and marked as such.
-/

namespace VscodeSearch

/-! ## String helpers -/

/-- Characters treated as whitespace by the JavaScript String.trim calls in
the source (space, tab, newline, carriage return, vertical tab, form feed). -/
def isJsWhitespace (c : Char) : Bool :=
  c == ' ' || c == '\t' || c == '\n' || c == '\r' || c == '\x0b' || c == '\x0c'

/-- Trim on a character list, from both ends. -/
def jsTrimL (l : List Char) : List Char :=
  ((l.dropWhile isJsWhitespace).reverse.dropWhile isJsWhitespace).reverse

/-- Modelled from the spec: JavaScript String.trim as used on grep output
lines and stderr text. -/
def jsTrim (s : String) : String :=
  ⟨jsTrimL s.data⟩

/-- A list starts with the given other list. -/
def startsWithL : List Char → List Char → Bool
  | _, [] => true
  | [], _ :: _ => false
  | c :: cs, p :: ps => c == p && startsWithL cs ps

/-- Modelled from the spec: strings.startsWith / String.prototype.startsWith. -/
def jsStartsWith (s pre : String) : Bool :=
  startsWithL s.data pre.data

/-- Split a character list at every occurrence of the separator character. -/
def splitOnCharL (sep : Char) : List Char → List (List Char)
  | [] => [[]]
  | c :: cs =>
    if c == sep then [] :: splitOnCharL sep cs
    else
      match splitOnCharL sep cs with
      | [] => [[c]]
      | l :: ls => (c :: l) :: ls

/-- Modelled from the spec: the JavaScript split call on a one-character
separator, as in stderr handling. -/
def jsSplitNewlines (s : String) : List String :=
  (splitOnCharL '\n' s.data).map fun l => (⟨l⟩ : String)

/-- Modelled from the spec: JavaScript indexOf(char) compared with 0, i.e.
character containment. -/
def jsContains (s : String) (c : Char) : Bool :=
  s.data.any (· == c)

/-- Modelled from the spec: strings.stripWildcards from vs/base/common/strings
(not under the provided sources); removes every `*` from the pattern before
the fuzzy test. -/
def stripWildcards (s : String) : String :=
  ⟨s.data.filter (fun c => c != '*')⟩

/-- Modelled from the spec: JavaScript toLowerCase, character by character. -/
def toLowerStr (s : String) : String :=
  ⟨s.data.map Char.toLower⟩

/-- Greedy in-order scan: every character of the query occurs in the target,
in order. -/
def fuzzySubseq : List Char → List Char → Bool
  | _, [] => true
  | [], _ :: _ => false
  | t :: ts, q :: qs => if t == q then fuzzySubseq ts qs else fuzzySubseq ts (q :: qs)

/-- Modelled from the spec: strings.fuzzyContains(target, query) from
vs/base/common/strings (not under the provided sources).  An empty target or
query fails, a query longer than the target fails, and otherwise the query
characters must occur in order in the lowercased target. -/
def fuzzyContains (target query : String) : Bool :=
  if target.data.isEmpty || query.data.isEmpty then false
  else if target.data.length < query.data.length then false
  else fuzzySubseq (target.data.map Char.toLower) query.data

/-- Modelled from the spec: strings.uppercaseFirstLetter from
vs/base/common/strings (not under the provided sources). -/
def uppercaseFirstLetter (s : String) : String :=
  match s.data with
  | [] => s
  | c :: cs => ⟨c.toUpper :: cs⟩

/-! ## The ripgrep stderr whitelist (ripgrepTextSearch.ts) -/

/-- From ripgrepTextSearch.ts: read the first line of stderr and return an
error for display based on a whitelist; `none` means the stderr output is
not considered fatal. -/
def rgErrorMsgForDisplay (msg : String) : Option String :=
  let lines := jsSplitNewlines (jsTrim msg)
  let firstLine := jsTrim (lines.headD "")
  if jsStartsWith firstLine "Error parsing regex" then
    some firstLine
  else if jsStartsWith firstLine "regex parse error" then
    some (uppercaseFirstLetter (jsTrim (lines.getLastD "")))
  else if jsStartsWith firstLine "error parsing glob" ||
      jsStartsWith firstLine "unsupported encoding" then
    some (uppercaseFirstLetter firstLine)
  else if firstLine = "Literal '\\n' not allowed." then
    some "Literal '\\n' currently not supported"
  else if jsStartsWith firstLine "Literal " then
    some firstLine
  else none

/-- From RipgrepEngine.search (ripgrepTextSearch.ts, the child close handler):
how the child process termination is reported.  `some msg` is the
done(new Error(displayMsg)) path; `none` is the success path.  The exit code
received by the handler is not consulted by the source.  The source tests
the display message for truthiness; the whitelist only ever produces
nonempty messages, so an Option models it. -/
def rgCloseOutcome (_code : Int) (gotData : Bool) (stderr : String) : Option String :=
  if stderr != "" && !gotData then
    match rgErrorMsgForDisplay stderr with
    | some displayMsg => some displayMsg
    | none => none
  else none

/-! ## The file walker (fileSearch.ts) -/

/-- From search.ts (interface IRawFileMatch): a raw file match candidate. -/
structure IRawFileMatch where
  base : String := ""
  relativePath : String
  basename : String
deriving Repr, DecidableEq

/-- The fields of IRawSearch consumed by FileWalker.matchFile and the
traversal loops.  `maxResults := none` models `config.maxResults || null`,
and `existsFlag` models the `exists` field (a Lean keyword). -/
structure WalkerConfig where
  filePattern : String := ""
  includePattern : Option (String → String → Bool) := none
  maxResults : Option Nat := none
  existsFlag : Bool := false

/-- The mutable walker fields that matchFile reads and writes, together with
the list of candidates handed to onResult, in order. -/
structure WalkerState where
  resultCount : Nat := 0
  isLimitHit : Bool := false
  emitted : List IRawFileMatch := []
deriving Repr, DecidableEq

/-- From FileWalker.isFilePatternMatch: `*` matches everything, otherwise the
stripped lowercased pattern must fuzzy-match the path; no pattern matches
all. -/
def isFilePatternMatch (cfg : WalkerConfig) (path : String) : Bool :=
  if cfg.filePattern ≠ "" then
    if cfg.filePattern = "*" then true
    else fuzzyContains path (toLowerStr (stripWildcards cfg.filePattern))
  else true

/-- The guard of FileWalker.matchFile: the candidate passes the file pattern
and the include pattern (absent include accepts everything). -/
def survives (cfg : WalkerConfig) (candidate : IRawFileMatch) : Bool :=
  isFilePatternMatch cfg candidate.relativePath &&
    (match cfg.includePattern with
     | none => true
     | some inc => inc candidate.relativePath candidate.basename)

/-- From FileWalker.matchFile: count the candidate, set the limit flag when
the exists flag is set or the count exceeds maxResults, and hand the
candidate to onResult only when the limit flag is not set. -/
def matchFile (cfg : WalkerConfig) (st : WalkerState) (candidate : IRawFileMatch) :
    WalkerState :=
  if survives cfg candidate then
    let resultCount := st.resultCount + 1
    let isLimitHit := st.isLimitHit ||
      (cfg.existsFlag ||
        match cfg.maxResults with
        | some maxResults => decide (maxResults < resultCount)
        | none => false)
    if !isLimitHit then
      { st with
        resultCount := resultCount,
        isLimitHit := isLimitHit,
        emitted := st.emitted ++ [candidate] }
    else
      { st with resultCount := resultCount, isLimitHit := isLimitHit }
  else st

/-- From FileWalker.cmdTraversal (the ripgrep branch without sibling
clauses): each streamed relative path is matched in order and the loop stops
as soon as the limit is hit. -/
def runCandidates (cfg : WalkerConfig) : WalkerState → List IRawFileMatch → WalkerState
  | st, [] => st
  | st, c :: cs =>
    let st1 := matchFile cfg st c
    if st1.isLimitHit then st1 else runCandidates cfg st1 cs

/-- The prefix of the candidate list up to and including the first candidate
that passes the pattern and include gates. -/
def stopAtFirstSurvivor (cfg : WalkerConfig) (cs : List IRawFileMatch) :
    List IRawFileMatch :=
  cs.takeWhile (fun c => !survives cfg c) ++
    (cs.dropWhile (fun c => !survives cfg c)).take 1

lemma matchFile_of_not_survives (cfg : WalkerConfig) (st : WalkerState)
    (c : IRawFileMatch) (h : survives cfg c = false) : matchFile cfg st c = st := by
  simp [matchFile, h]

lemma matchFile_step (cfg : WalkerConfig) (K : Nat) (st : WalkerState)
    (c : IRawFileMatch) (hs : survives cfg c = true) (hE : cfg.existsFlag = false)
    (hM : cfg.maxResults = some K) (hlim : st.isLimitHit = false) :
    matchFile cfg st c =
      if decide (st.resultCount + 1 ≤ K) then
        { st with
          resultCount := st.resultCount + 1,
          isLimitHit := false,
          emitted := st.emitted ++ [c] }
      else
        { st with resultCount := st.resultCount + 1, isLimitHit := true } := by
  by_cases h : st.resultCount + 1 ≤ K
  · have hd : decide (K < st.resultCount + 1) = false := by simp; omega
    simp [matchFile, hs, hE, hM, hlim, hd, h]
  · have hd : decide (K < st.resultCount + 1) = true := by simp; omega
    simp [matchFile, hs, hE, hM, hlim, hd, h]

lemma runCandidates_maxResults_inv (cfg : WalkerConfig) (K : Nat)
    (hE : cfg.existsFlag = false) (hM : cfg.maxResults = some K) :
    ∀ (cs : List IRawFileMatch) (st : WalkerState),
      st.isLimitHit = decide (K < st.resultCount) →
      st.emitted.length = min st.resultCount K →
      st.resultCount ≤ K →
      (runCandidates cfg st cs).isLimitHit =
          decide (K < (runCandidates cfg st cs).resultCount) ∧
        (runCandidates cfg st cs).emitted.length =
          min (runCandidates cfg st cs).resultCount K ∧
        (runCandidates cfg st cs).resultCount =
          min (st.resultCount + (cs.filter (survives cfg)).length) (K + 1) := by
  intro cs
  induction cs with
  | nil =>
    intro st h1 h2 h3
    refine ⟨h1, h2, ?_⟩
    simp [runCandidates]
    omega
  | cons c cs ih =>
    intro st h1 h2 h3
    have hlim : st.isLimitHit = false := by
      rw [h1]; simp; omega
    by_cases hs : survives cfg c = true
    · have hstep := matchFile_step cfg K st c hs hE hM hlim
      by_cases hK : st.resultCount + 1 ≤ K
      · have hst1 : matchFile cfg st c =
            { st with
              resultCount := st.resultCount + 1,
              isLimitHit := false,
              emitted := st.emitted ++ [c] } := by
          rw [hstep]; simp [hK]
        have hrun : runCandidates cfg st (c :: cs) =
            runCandidates cfg
              { st with
                resultCount := st.resultCount + 1,
                isLimitHit := false,
                emitted := st.emitted ++ [c] } cs := by
          simp [runCandidates, hst1]
        rw [hrun]
        have e1 : ({ st with
            resultCount := st.resultCount + 1,
            isLimitHit := false,
            emitted := st.emitted ++ [c] } : WalkerState).isLimitHit =
            decide (K < ({ st with
              resultCount := st.resultCount + 1,
              isLimitHit := false,
              emitted := st.emitted ++ [c] } : WalkerState).resultCount) := by
          show false = decide (K < st.resultCount + 1)
          have : ¬ K < st.resultCount + 1 := by omega
          simp [this]
        have e2 : ({ st with
            resultCount := st.resultCount + 1,
            isLimitHit := false,
            emitted := st.emitted ++ [c] } : WalkerState).emitted.length =
            min ({ st with
              resultCount := st.resultCount + 1,
              isLimitHit := false,
              emitted := st.emitted ++ [c] } : WalkerState).resultCount K := by
          show (st.emitted ++ [c]).length = min (st.resultCount + 1) K
          rw [List.length_append, h2]
          simp
          omega
        obtain ⟨g1, g2, g3⟩ := ih
          { st with
            resultCount := st.resultCount + 1,
            isLimitHit := false,
            emitted := st.emitted ++ [c] }
          e1 e2 (by show st.resultCount + 1 ≤ K; omega)
        refine ⟨g1, g2, ?_⟩
        rw [g3]
        show min (st.resultCount + 1 + (List.filter (survives cfg) cs).length) (K + 1) =
          min (st.resultCount + (List.filter (survives cfg) (c :: cs)).length) (K + 1)
        rw [List.filter_cons, if_pos hs, List.length_cons]
        omega
      · have hst1 : matchFile cfg st c =
            { st with resultCount := st.resultCount + 1, isLimitHit := true } := by
          rw [hstep]; simp [hK]
        have hrun : runCandidates cfg st (c :: cs) =
            { st with resultCount := st.resultCount + 1, isLimitHit := true } := by
          simp [runCandidates, hst1]
        rw [hrun]
        have hK' : st.resultCount = K := by omega
        refine ⟨?_, ?_, ?_⟩
        · show true = decide (K < st.resultCount + 1)
          have : K < st.resultCount + 1 := by omega
          simp [this]
        · show st.emitted.length = min (st.resultCount + 1) K
          rw [h2]
          omega
        · show st.resultCount + 1 =
            min (st.resultCount + (List.filter (survives cfg) (c :: cs)).length) (K + 1)
          rw [List.filter_cons, if_pos hs, List.length_cons]
          omega
    · have hs' : survives cfg c = false := by simpa using hs
      have hst1 := matchFile_of_not_survives cfg st c hs'
      have hrun : runCandidates cfg st (c :: cs) = runCandidates cfg st cs := by
        simp [runCandidates, hst1, hlim]
      rw [hrun]
      obtain ⟨g1, g2, g3⟩ := ih st h1 h2 h3
      refine ⟨g1, g2, ?_⟩
      rw [g3]
      simp [hs']

/-- C1.  For every query with maxResults = K (exists flag clear), running the
walker match loop over any candidate stream emits at most K matches, and the
limit flag of the terminal is set if and only if the stream held more than K
candidates passing the pattern and include gates, i.e. iff the walk stopped
before exhausting the search space. -/
theorem C1_maxResults_cap (pat : String) (inc : Option (String → String → Bool))
    (K : Nat) (cands : List IRawFileMatch) :
    let cfg : WalkerConfig := { filePattern := pat, includePattern := inc,
                                maxResults := some K, existsFlag := false }
    (runCandidates cfg {} cands).emitted.length ≤ K ∧
      ((runCandidates cfg {} cands).isLimitHit = true ↔
        K < (cands.filter (survives cfg)).length) := by
  intro cfg
  obtain ⟨g1, g2, g3⟩ := runCandidates_maxResults_inv cfg K rfl rfl cands {}
    (by simp) (by simp) (by simp)
  constructor
  · rw [g2]; omega
  · rw [g1, g3]
    simp only [decide_eq_true_eq]
    omega

lemma matchFile_exists_survives (cfg : WalkerConfig) (st : WalkerState)
    (c : IRawFileMatch) (hE : cfg.existsFlag = true) (hs : survives cfg c = true) :
    matchFile cfg st c =
      { st with resultCount := st.resultCount + 1, isLimitHit := true } := by
  simp [matchFile, hs, hE]

lemma runCandidates_exists_spec (cfg : WalkerConfig) (hE : cfg.existsFlag = true) :
    ∀ (cs : List IRawFileMatch) (st : WalkerState),
      (runCandidates cfg st cs).emitted = st.emitted ∧
        (runCandidates cfg st cs).isLimitHit =
          (st.isLimitHit || cs.any (survives cfg)) ∧
        runCandidates cfg st cs = runCandidates cfg st (stopAtFirstSurvivor cfg cs) := by
  intro cs
  induction cs with
  | nil =>
    intro st
    exact ⟨rfl, by simp [runCandidates], by simp [stopAtFirstSurvivor, runCandidates]⟩
  | cons c cs ih =>
    intro st
    by_cases hs : survives cfg c = true
    · have hst1 := matchFile_exists_survives cfg st c hE hs
      have hstop : stopAtFirstSurvivor cfg (c :: cs) = [c] := by
        simp [stopAtFirstSurvivor, hs]
      have hrun : runCandidates cfg st (c :: cs) =
          { st with resultCount := st.resultCount + 1, isLimitHit := true } := by
        simp [runCandidates, hst1]
      refine ⟨by rw [hrun], by rw [hrun]; simp [hs], ?_⟩
      rw [hstop, hrun]
      simp [runCandidates, hst1]
    · have hs' : survives cfg c = false := by simpa using hs
      have hst1 := matchFile_of_not_survives cfg st c hs'
      have hstop : stopAtFirstSurvivor cfg (c :: cs) =
          c :: stopAtFirstSurvivor cfg cs := by
        simp [stopAtFirstSurvivor, hs']
      obtain ⟨g1, g2, g3⟩ := ih st
      by_cases hL : st.isLimitHit = true
      · have hrun : runCandidates cfg st (c :: cs) = st := by
          simp [runCandidates, hst1, hL]
        have hrun2 : runCandidates cfg st (c :: stopAtFirstSurvivor cfg cs) = st := by
          simp [runCandidates, hst1, hL]
        rw [hstop, hrun, hrun2]
        simp [hL]
      · have hL' : st.isLimitHit = false := by simpa using hL
        have hrun : runCandidates cfg st (c :: cs) = runCandidates cfg st cs := by
          simp [runCandidates, hst1, hL']
        have hrun2 : runCandidates cfg st (c :: stopAtFirstSurvivor cfg cs) =
            runCandidates cfg st (stopAtFirstSurvivor cfg cs) := by
          simp [runCandidates, hst1, hL']
        rw [hstop, hrun, hrun2]
        exact ⟨g1, by rw [g2]; simp [hs'], g3⟩

/-- C8.  For every file-search query with the exists flag set, the walker
match loop emits no match at all, reports the limit as hit exactly when some
candidate passes the gates, and behaves as if the candidate stream had been
cut right after the first surviving candidate (the engine stops there). -/
theorem C8_exists_stops_on_first_match (pat : String)
    (inc : Option (String → String → Bool)) (maxR : Option Nat)
    (cands : List IRawFileMatch) :
    let cfg : WalkerConfig := { filePattern := pat, includePattern := inc,
                                maxResults := maxR, existsFlag := true }
    (runCandidates cfg {} cands).emitted = [] ∧
      ((runCandidates cfg {} cands).isLimitHit = cands.any (survives cfg)) ∧
      runCandidates cfg {} cands =
        runCandidates cfg {} (stopAtFirstSurvivor cfg cands) := by
  intro cfg
  obtain ⟨g1, g2, g3⟩ := runCandidates_exists_spec cfg rfl cands {}
  exact ⟨g1, by rw [g2]; simp, g3⟩

/-! ## Child process termination (C2) -/

lemma rgErrorMsgForDisplay_empty : rgErrorMsgForDisplay "" = none := by
  decide

/-- C2, counterexample.  The claim says termination is a success iff the
child exits with code 0 or stdout data was received.  Here the child exits
with code 2 and no stdout data was received, yet the close handler reports
success, because the first stderr line matches no whitelisted prefix: the
exit code is never consulted in the ripgrep path. -/
theorem C2_counterexample :
    rgCloseOutcome 2 false "some unrelated warning\n" = none ∧
      ¬ ((2 : Int) = 0 ∨ false = true) := by
  constructor
  · decide
  · decide

/-- C2, amended.  A child rg process termination is treated as success if
and only if stdout data was received or the first stderr line matches no
whitelisted fatal prefix; the exit code is not consulted, and on failure the
reported error is exactly the display message derived from the first stderr
line by the whitelist. -/
theorem C2_close_success_criterion (code : Int) (gotData : Bool) (stderr : String) :
    rgCloseOutcome code gotData stderr =
      if gotData then none else rgErrorMsgForDisplay stderr := by
  cases gotData with
  | true => simp [rgCloseOutcome]
  | false =>
    by_cases h : stderr = ""
    · subst h
      simp [rgCloseOutcome, rgErrorMsgForDisplay_empty]
    · have h' : (stderr != "") = true := by simpa using h
      simp only [rgCloseOutcome, h', Bool.not_false, Bool.and_self, if_true, Bool.true_and]
      cases hx : rgErrorMsgForDisplay stderr <;> simp [hx]

/-! ## Error propagation across folder roots (C4) -/

/-- The outcome of one folder root traversal: either it completed, or it
errored after having already emitted some matches. -/
inductive RootOutcome where
  | ok (ms : List IRawFileMatch)
  | err (msg : String) (ms : List IRawFileMatch)
deriving Repr, DecidableEq

/-- The matches a root emitted before finishing (errored or not). -/
def rootMatches : RootOutcome → List IRawFileMatch
  | .ok ms => ms
  | .err _ ms => ms

/-- The error a root finished with, if any. -/
def rootError : RootOutcome → Option String
  | .ok _ => none
  | .err e _ => some e

/-- From FileWalker.walk: flow.parallel runs every folder root to completion
independently; each root error is recorded, the emitted matches of all roots
flow to onResult, and the done callback receives the first non-null error
(`errors.filter(e => !!e)[0]`) together with the limit flag. -/
def walkOverRoots (outcomes : List RootOutcome) : List IRawFileMatch × Option String :=
  ((outcomes.map rootMatches).foldr (· ++ ·) [],
    (outcomes.filterMap rootError).head?)

/-- The terminal item of a search, from search.ts. -/
inductive SearchTerminal where
  | success (limitHit : Bool)
  | error (msg : String)
deriving Repr, DecidableEq

/-- From Engine.search (fileSearch.ts) composed with SearchService.doSearch
(rawSearchService.ts): the walker completion is turned into the terminal
item; when the walker passed an error the search rejects with it, otherwise
it resolves with the success carrying the limit flag. -/
def doSearchPipeline (outcomes : List RootOutcome) (isLimitHit : Bool) :
    List IRawFileMatch × SearchTerminal :=
  let (emitted, firstError) := walkOverRoots outcomes
  (emitted,
    match firstError with
    | some e => SearchTerminal.error e
    | none => SearchTerminal.success isLimitHit)

/-- C4, counterexample.  With one errored root and one root that produced a
match, matches were produced and yet the terminal is the error item, not a
success with partial stats: doSearch rejects whenever any root errored. -/
theorem C4_counterexample :
    (doSearchPipeline
        [RootOutcome.err "EACCES: permission denied" [],
          RootOutcome.ok [{ base := "/root2", relativePath := "a.txt", basename := "a.txt" }]]
        false).1 =
        [{ base := "/root2", relativePath := "a.txt", basename := "a.txt" }] ∧
      (doSearchPipeline
        [RootOutcome.err "EACCES: permission denied" [],
          RootOutcome.ok [{ base := "/root2", relativePath := "a.txt", basename := "a.txt" }]]
        false).2 = SearchTerminal.error "EACCES: permission denied" := by
  constructor
  · decide
  · decide

/-- C4, amended.  An error in one folder root aborts only that root: every
root's matches are still emitted on the progress stream.  But after all
roots complete, the first root error (when one exists) becomes the terminal
error item regardless of whether matches were produced, and the success
terminal is emitted exactly when no root errored. -/
theorem C4_root_error_propagation (outcomes : List RootOutcome) (isLimitHit : Bool) :
    (doSearchPipeline outcomes isLimitHit).1 = (outcomes.map rootMatches).flatten ∧
      (doSearchPipeline outcomes isLimitHit).2 =
        ((outcomes.filterMap rootError).head?).elim (SearchTerminal.success isLimitHit)
          SearchTerminal.error ∧
      ((doSearchPipeline outcomes isLimitHit).2 = SearchTerminal.success isLimitHit ↔
        outcomes.filterMap rootError = []) := by
  refine ⟨?_, ?_, ?_⟩
  · show (outcomes.map rootMatches).foldr (· ++ ·) [] = (outcomes.map rootMatches).flatten
    induction outcomes with
    | nil => rfl
    | cons o os ih => simp_all [List.flatten]
  · show (match (outcomes.filterMap rootError).head? with
      | some e => SearchTerminal.error e
      | none => SearchTerminal.success isLimitHit) = _
    cases (outcomes.filterMap rootError).head? <;> rfl
  · show (match (outcomes.filterMap rootError).head? with
      | some e => SearchTerminal.error e
      | none => SearchTerminal.success isLimitHit) = SearchTerminal.success isLimitHit ↔ _
    cases hx : (outcomes.filterMap rootError).head? with
    | none =>
      simp only [List.head?_eq_none_iff] at hx
      simp [hx]
    | some e =>
      constructor
      · intro h
        cases h
      · intro h
        rw [h] at hx
        cases hx

/-! ## The prefix result cache (C5) -/

/-- From rawSearchService.ts (interface ICacheRow): the completed entry list
of a cached search together with its resolved flag. -/
structure ICacheRow where
  entries : List IRawFileMatch
  resolved : Bool
deriving Repr, DecidableEq

/-- From SearchService.getResultsFromCache: scan the cache rows in insertion
order; a row is reusable when the new pattern starts with the row's pattern,
except that a new pattern containing a path separator requires the row's
pattern to contain one too. -/
def getCachedRow (cache : List (String × ICacheRow)) (searchValue : String) :
    Option ICacheRow :=
  let hasPathSep := jsContains searchValue '/'
  (cache.find? fun kv =>
    jsStartsWith searchValue kv.1 && !(hasPathSep && !(jsContains kv.1 '/'))).map (·.2)

/-- From SearchService.getResultsFromCache: on a hit the cached completed
entry list is filtered by the new pattern's fuzzy test. -/
def getResultsFromCache (cache : List (String × ICacheRow)) (searchValue : String) :
    Option (List IRawFileMatch) :=
  (getCachedRow cache searchValue).map fun row =>
    row.entries.filter fun entry =>
      fuzzyContains entry.relativePath (toLowerStr (stripWildcards searchValue))

/-- From SearchService.trySortedSearchFromCache: a cache hit is reported with
stats whose fromCache field is true (the boolean in the pair). -/
def trySortedSearchFromCache (cache : List (String × ICacheRow)) (searchValue : String) :
    Option (List IRawFileMatch × Bool) :=
  (getResultsFromCache cache searchValue).map fun results => (results, true)

/-- C5.  A cached row is reused exactly when some cached pattern is a prefix
of the new pattern and, if the new pattern contains a path separator, that
cached pattern contains one as well; on a hit the row's completed entry list
is filtered by the new pattern's fuzzy test and the result is flagged as
coming from the cache. -/
theorem C5_cache_reuse (cache : List (String × ICacheRow)) (searchValue : String) :
    ((trySortedSearchFromCache cache searchValue).isSome = true ↔
      ∃ kv ∈ cache, jsStartsWith searchValue kv.1 = true ∧
        (jsContains searchValue '/' = false ∨ jsContains kv.1 '/' = true)) ∧
    trySortedSearchFromCache cache searchValue =
      (getCachedRow cache searchValue).map fun row =>
        (row.entries.filter fun entry =>
          fuzzyContains entry.relativePath (toLowerStr (stripWildcards searchValue)),
          true) := by
  constructor
  · show ((((cache.find? fun kv =>
        jsStartsWith searchValue kv.1 &&
          !(jsContains searchValue '/' && !(jsContains kv.1 '/'))).map (·.2)).map _).map _).isSome =
        true ↔ _
    rw [Option.isSome_map', Option.isSome_map', Option.isSome_map']
    rw [List.find?_isSome]
    constructor
    · rintro ⟨kv, hmem, hp⟩
      simp only [Bool.and_eq_true, Bool.not_eq_true', Bool.and_eq_false_iff,
        Bool.not_eq_true] at hp
      obtain ⟨h1, h2⟩ := hp
      refine ⟨kv, hmem, h1, ?_⟩
      rcases h2 with h | h
      · exact Or.inl h
      · right
        simpa using h
    · rintro ⟨kv, hmem, h1, h2⟩
      refine ⟨kv, hmem, ?_⟩
      simp only [Bool.and_eq_true, Bool.not_eq_true', Bool.and_eq_false_iff,
        Bool.not_eq_true]
      refine ⟨h1, ?_⟩
      rcases h2 with h | h
      · exact Or.inl h
      · right
        simpa using h
  · simp [trySortedSearchFromCache, getResultsFromCache, Option.map_map]
    rfl

/-! ## The batched collector (C7) -/

namespace BatchedCollector

/-- The mutable fields of BatchedCollector (rawSearchService.ts); the timer
handle is modelled by whether a flush timeout is pending. -/
structure State (α : Type) where
  totalNumberCompleted : Nat := 0
  batch : List α := []
  batchSize : Nat := 0
  timeoutRunning : Bool := false
deriving Repr, DecidableEq

/-- A call of the wrapped progress callback: a bare item (unbatched mode) or
a batch. -/
inductive Out (α : Type) where
  | item (x : α)
  | batch (xs : List α)
deriving Repr, DecidableEq

/-- START_BATCH_AFTER_COUNT: below this cumulative size every addition is
flushed at once. -/
def START_BATCH_AFTER_COUNT : Nat := 50

/-- From BatchedCollector.flush: when the accumulated size is nonzero, add
it to the running total, hand the batch to the callback, reset batch and
size, and clear a pending timeout.  A flush with accumulated size zero does
nothing. -/
def flush {α : Type} (st : State α) : State α × List (Out α) :=
  if st.batchSize ≠ 0 then
    ({ totalNumberCompleted := st.totalNumberCompleted + st.batchSize,
       batch := [], batchSize := 0, timeoutRunning := false },
      [Out.batch st.batch])
  else (st, [])

/-- From BatchedCollector.onUpdate: flush at once during warm-up, flush when
the batch is full, otherwise make sure a flush timeout is pending. -/
def onUpdate {α : Type} (maxBatchSize : Nat) (st : State α) : State α × List (Out α) :=
  if st.totalNumberCompleted < START_BATCH_AFTER_COUNT then
    flush st
  else if st.batchSize ≥ maxBatchSize then
    flush st
  else if !st.timeoutRunning then
    ({ st with timeoutRunning := true }, [])
  else (st, [])

/-- From BatchedCollector.addItemToBatch. -/
def addItemToBatch {α : Type} (maxBatchSize : Nat) (st : State α) (item : α)
    (size : Nat) : State α × List (Out α) :=
  onUpdate maxBatchSize { st with batch := st.batch ++ [item],
                                  batchSize := st.batchSize + size }

/-- From BatchedCollector.addItems' helper addItemsToBatch. -/
def addItemsToBatch {α : Type} (maxBatchSize : Nat) (st : State α) (items : List α)
    (size : Nat) : State α × List (Out α) :=
  onUpdate maxBatchSize { st with batch := st.batch ++ items,
                                  batchSize := st.batchSize + size }

/-- From BatchedCollector.addItem; the JavaScript guard against a null item
has no counterpart in the typed model. -/
def addItem {α : Type} (maxBatchSize : Nat) (st : State α) (item : α) (size : Nat) :
    State α × List (Out α) :=
  if maxBatchSize > 0 then addItemToBatch maxBatchSize st item size
  else (st, [Out.item item])

/-- From BatchedCollector.addItems. -/
def addItems {α : Type} (maxBatchSize : Nat) (st : State α) (items : List α)
    (size : Nat) : State α × List (Out α) :=
  if maxBatchSize > 0 then addItemsToBatch maxBatchSize st items size
  else (st, [Out.batch items])

/-- The setTimeout callback started by onUpdate simply flushes. -/
def fireTimeout {α : Type} (st : State α) : State α × List (Out α) :=
  flush st

end BatchedCollector

/-- C7, counterexample.  The claim says the collector flushes immediately on
every addition until 50 items have been collected.  A fresh collector is far
below the warm-up threshold, yet adding an item of size 0 produces no
callback at all and the item stays in the batch, because flush is a no-op
when the accumulated size is zero. -/
theorem C7_counterexample :
    (BatchedCollector.addItem 512 ({} : BatchedCollector.State Nat) 7 0).2 = [] ∧
      (BatchedCollector.addItem 512 ({} : BatchedCollector.State Nat) 7 0).1.batch =
        [7] := by
  constructor
  · decide
  · decide

/-- C7, amended.  In batching mode, while the running total is below the
warm-up threshold of 50, an addition with positive accumulated size is
flushed immediately (batch handed to the callback, total increased by the
accumulated size, timer cleared); once the total has reached the threshold
an addition accumulates: when the batch reaches maxBatchSize it is flushed,
otherwise nothing is emitted and a flush timeout is left pending; and
flush with a nonzero accumulated size drains the batch, clears the timer and
adds the accumulated size to the running total. -/
theorem C7_batching_policy {α : Type} (maxB : Nat) (st : BatchedCollector.State α)
    (x : α) (n : Nat) :
    (st.totalNumberCompleted < 50 → 0 < st.batchSize + n → 0 < maxB →
      BatchedCollector.addItem maxB st x n =
        ({ totalNumberCompleted := st.totalNumberCompleted + (st.batchSize + n),
           batch := [], batchSize := 0, timeoutRunning := false },
          [BatchedCollector.Out.batch (st.batch ++ [x])])) ∧
    (50 ≤ st.totalNumberCompleted → st.batchSize + n < maxB → 0 < maxB →
      (BatchedCollector.addItem maxB st x n).2 = [] ∧
        (BatchedCollector.addItem maxB st x n).1.batch = st.batch ++ [x] ∧
        (BatchedCollector.addItem maxB st x n).1.timeoutRunning = true) ∧
    (50 ≤ st.totalNumberCompleted → maxB ≤ st.batchSize + n → 0 < maxB →
      BatchedCollector.addItem maxB st x n =
        ({ totalNumberCompleted := st.totalNumberCompleted + (st.batchSize + n),
           batch := [], batchSize := 0, timeoutRunning := false },
          [BatchedCollector.Out.batch (st.batch ++ [x])])) ∧
    (0 < st.batchSize →
      BatchedCollector.flush st =
        ({ totalNumberCompleted := st.totalNumberCompleted + st.batchSize,
           batch := [], batchSize := 0, timeoutRunning := false },
          [BatchedCollector.Out.batch st.batch])) := by
  refine ⟨?_, ?_, ?_, ?_⟩
  · intro h1 h2 h3
    simp [BatchedCollector.addItem, BatchedCollector.addItemToBatch,
      BatchedCollector.onUpdate, BatchedCollector.flush,
      BatchedCollector.START_BATCH_AFTER_COUNT, h3, h1]
    omega
  · intro h1 h2 h3
    have hlt : ¬ st.totalNumberCompleted < 50 := by omega
    have hge : ¬ st.batchSize + n ≥ maxB := by omega
    by_cases ht : st.timeoutRunning = true
    · simp [BatchedCollector.addItem, BatchedCollector.addItemToBatch,
        BatchedCollector.onUpdate, BatchedCollector.START_BATCH_AFTER_COUNT,
        h3, hlt, hge, ht]
    · have ht' : st.timeoutRunning = false := by simpa using ht
      simp [BatchedCollector.addItem, BatchedCollector.addItemToBatch,
        BatchedCollector.onUpdate, BatchedCollector.START_BATCH_AFTER_COUNT,
        h3, hlt, hge, ht']
  · intro h1 h2 h3
    have hlt : ¬ st.totalNumberCompleted < 50 := by omega
    have hge : st.batchSize + n ≥ maxB := h2
    have hnz : st.batchSize + n ≠ 0 := by omega
    simp [BatchedCollector.addItem, BatchedCollector.addItemToBatch,
      BatchedCollector.onUpdate, BatchedCollector.flush,
      BatchedCollector.START_BATCH_AFTER_COUNT, h3, hlt, hge, hnz]
  · intro h1
    have hnz : st.batchSize ≠ 0 := by omega
    simp [BatchedCollector.flush, hnz]

/-- C7, witness for the amended theorem: a fresh collector in warm-up
flushes an addition of size 3 at once. -/
theorem C7_batching_policy_witness :
    BatchedCollector.addItem 512 ({} : BatchedCollector.State Nat) 7 3 =
      ({ totalNumberCompleted := 3, batch := [], batchSize := 0,
         timeoutRunning := false }, [BatchedCollector.Out.batch [7]]) :=
  (C7_batching_policy 512 {} 7 3).1 (by decide) (by decide) (by decide)


/-! ## The grep output parser (ripgrepTextSearch.ts, RipgrepParser) -/

namespace RipgrepParser

/-- MATCH_START_MARKER from RipgrepParser. -/
def matchStartMarker : List Char := ("\x1b[0m\x1b[31m").data

/-- MATCH_END_MARKER from RipgrepParser; also the color reset that opens the
file-header and result-line patterns. -/
def matchEndMarker : List Char := ("\x1b[0m").data

/-- A 0-based range as built by `new Range(lineNum, start, lineNum, end)`. -/
structure RgRange where
  startLineNumber : Int
  startColumn : Int
  endLineNumber : Int
  endColumn : Int
deriving Repr, DecidableEq

/-- Modelled from the spec: TextSearchResult (vs/platform/search, not under
the provided sources): a match carries the line preview with color markers
removed, plus its range; preview truncation options are not modelled.  The
field is named preview for the spec's preview text. -/
structure RgTextMatch where
  preview : List Char
  range : RgRange
deriving Repr, DecidableEq

/-- Modelled from the spec: FileMatch from search.ts (not under the provided
sources): the absolute path plus the matches collected so far (its `matches`
field; that name is a Lean keyword). -/
structure FileMatch where
  path : List Char
  collected : List RgTextMatch
deriving Repr, DecidableEq

/-- Modelled from the spec: the serialized form of a FileMatch handed to the
result event (path, matches, numMatches). -/
structure ISerializedFileMatch where
  path : List Char
  serializedMatches : List RgTextMatch
  numMatches : Nat
deriving Repr, DecidableEq

/-- FileMatch.serialize. -/
def FileMatch.serialize (fm : FileMatch) : ISerializedFileMatch :=
  ⟨fm.path, fm.collected, fm.collected.length⟩

/-- The events the parser emits: the per-file result event and the hitLimit
event. -/
inductive RgEvent where
  | result (m : ISerializedFileMatch)
  | hitLimit
deriving Repr, DecidableEq

/-- The constructor arguments of RipgrepParser: maxResults (possibly absent),
the root folder used to absolutize paths, and the extra search files used
when no file header is printed. -/
structure Config where
  maxResults : Option Nat := none
  rootFolder : List Char := []
  extraSearchFiles : List (List Char) := []
deriving Repr, DecidableEq

/-- The mutable parser fields: the pending file match, the isDone flag set by
cancel, and the running result count.  `errored` records that the parser
threw its unknown-file error, which kills the stdout stream. -/
structure Core where
  fileMatch : Option FileMatch := none
  isDone : Bool := false
  numResults : Nat := 0
  errored : Bool := false
deriving Repr, DecidableEq

/-- Resolve a JavaScript slice index against a length (negative counts from
the end, both ends clamped). -/
def jsIdx (len : Nat) (x : Int) : Nat :=
  if x < 0 then (x + len).toNat else min x.toNat len

/-- JavaScript String.prototype.slice with a begin and an end index. -/
def jsSlice (l : List Char) (a b : Int) : List Char :=
  (l.take (jsIdx l.length b)).drop (jsIdx l.length a)

/-- JavaScript String.prototype.slice with only a begin index. -/
def jsSliceFrom (l : List Char) (a : Int) : List Char :=
  l.drop (jsIdx l.length a)

/-- parseInt on a digit run. -/
def digitsToNat (ds : List Char) : Nat :=
  ds.foldl (fun n c => n * 10 + (c.toNat - '0'.toNat)) 0

/-- The three captures of RESULT_REGEX: the 1-based line number digits, the
line text, and whether the optional trailing CR group matched. -/
structure ResultLineMatch where
  lineNumber : Nat
  text : List Char
  trailingCR : Bool
deriving Repr, DecidableEq

/-- Model of RESULT_REGEX, the anchored pattern marker (digits) marker colon
(any)* (CR?).  A JavaScript dot does not match a carriage return, so the
text capture stops at the first CR and the CR group matches exactly when one
follows it. -/
def resultRegexMatch (s : List Char) : Option ResultLineMatch :=
  if startsWithL s matchEndMarker then
    let rest := s.drop 4
    let digits := rest.takeWhile Char.isDigit
    if digits.isEmpty then none
    else
      let afterDigits := rest.drop digits.length
      if startsWithL afterDigits (matchEndMarker ++ [':']) then
        let t := afterDigits.drop 5
        let text := t.takeWhile (fun c => c != '\r')
        some ⟨digitsToNat digits, text, decide (text.length < t.length)⟩
      else none
  else none

/-- Model of FILE_REGEX, the anchored pattern marker (any)+ marker end: the
line must start and end with the reset marker with at least one character
between them, and the middle may not contain a carriage return (a JavaScript
dot does not match one). -/
def fileRegexMatch (s : List Char) : Option (List Char) :=
  if 9 ≤ s.length && startsWithL s matchEndMarker &&
      startsWithL (s.drop (s.length - 4)) matchEndMarker then
    let mid := (s.drop 4).take (s.length - 8)
    if mid.any (fun c => c == '\r') then none else some mid
  else none

/-- Modelled from the spec: node path.isAbsolute for the posix root used by
the engine. -/
def isAbsolutePathL (p : List Char) : Bool :=
  match p with
  | c :: _ => c == '/'
  | [] => false

/-- Modelled from the spec: node path.join of the root folder and a relative
path. -/
def pathJoinL (root p : List Char) : List Char :=
  if root.getLast? = some '/' then root ++ p else root ++ '/' :: p

/-- From RipgrepParser.getFileMatch: absolutize the path against the root
folder and open a fresh file match. -/
def getFileMatch (cfg : Config) (relativeOrAbsolutePath : List Char) : FileMatch :=
  ⟨if isAbsolutePathL relativeOrAbsolutePath then relativeOrAbsolutePath
    else pathJoinL cfg.rootFolder relativeOrAbsolutePath, []⟩

/-- Modelled from the spec: strings.stripUTF8BOM (vs/base/common/strings, not
under the provided sources). -/
def stripUTF8BOM (l : List Char) : List Char :=
  match l with
  | c :: cs => if c == '\uFEFF' then cs else l
  | [] => l

/-- The state of handleMatchLine's scanning loop when it finishes: the
collected preview parts and ranges, the updated result count, the hit flag,
and lastMatchEndPos for the final preview chunk. -/
structure HmLoopOut where
  parts : List (List Char)
  ranges : List RgRange
  numResults : Nat
  hitLimit : Bool
  lastMatchEndPos : Nat
deriving Repr, DecidableEq

/-- The for loop of RipgrepParser.handleMatchLine.  `rest` is the suffix of
the line at position `i` (the source indexes into the line; the loop runs
while i < length - 3, i.e. while more than three characters remain).  On a
match start marker nine characters are consumed and the real start index
recorded; on a match end marker four are consumed, a range is recorded
unless the limit was hit, and the result count advances, hitting the limit
when it reaches maxResults; any other character advances the real index. -/
def hmLoop (maxResults : Option Nat) (text : List Char) (lineNum : Int) :
    (rest : List Char) → (i : Nat) → (lastEnd : Nat) → (mStartPos : Int) →
    (mStartReal : Int) → (realIdx : Nat) → (parts : List (List Char)) →
    (ranges : List RgRange) → (num : Nat) → (hit : Bool) → HmLoopOut
  | '\x1b' :: '[' :: '0' :: 'm' :: '\x1b' :: '[' :: '3' :: '1' :: 'm' :: rest,
      i, lastEnd, _, _, realIdx, parts, ranges, num, hit =>
    hmLoop maxResults text lineNum rest (i + 9) lastEnd
      (Int.ofNat (i + 9)) (Int.ofNat realIdx) realIdx
      (parts ++ [jsSlice text (Int.ofNat lastEnd) (Int.ofNat i)]) ranges num hit
  | '\x1b' :: '[' :: '0' :: 'm' :: rest,
      i, _, mStartPos, mStartReal, realIdx, parts, ranges, num, hit =>
    let chunk := jsSlice text mStartPos (Int.ofNat i)
    let ranges' :=
      if !hit then
        ranges ++ [⟨lineNum, mStartReal, lineNum, Int.ofNat realIdx⟩]
      else ranges
    let num' := num + 1
    let hit' := hit ||
      (match maxResults with
       | some m => decide (m ≤ num')
       | none => false)
    hmLoop maxResults text lineNum rest (i + 4) (i + 4) (-1) (-1) realIdx
      (parts ++ [chunk]) ranges' num' hit'
  | _ :: rest, i, lastEnd, mStartPos, mStartReal, realIdx, parts, ranges, num, hit =>
    if 2 < rest.length then
      hmLoop maxResults text lineNum rest (i + 1) lastEnd mStartPos mStartReal
        (realIdx + 1) parts ranges num hit
    else
      ⟨parts, ranges, num, hit, lastEnd⟩
  | [], _, lastEnd, _, _, _, parts, ranges, num, hit =>
    ⟨parts, ranges, num, hit, lastEnd⟩

/-- The tail of RipgrepParser.handleMatchLine once a file match is present:
run the scanning loop, append the final preview chunk, join the parts into
the marker-free preview, add the ranges to the file match, and on a hit
limit cancel, emit the file match and fire the hitLimit event. -/
def handleMatchLineGo (cfg : Config) (core : Core) (lineNum : Int) (text : List Char) :
    Core × List RgEvent :=
  match core.fileMatch with
  | none => (core, [])
  | some fm =>
    let out := hmLoop cfg.maxResults text lineNum text 0 0 (-1) (-1) 0 [] []
      core.numResults false
    let parts := out.parts ++ [jsSliceFrom text (Int.ofNat out.lastMatchEndPos)]
    let preview := parts.flatten
    let fm' : FileMatch :=
      { fm with collected := fm.collected ++ out.ranges.map (fun r => ⟨preview, r⟩) }
    if out.hitLimit then
      ({ core with numResults := out.numResults, isDone := true, fileMatch := none },
        [RgEvent.result fm'.serialize, RgEvent.hitLimit])
    else
      ({ core with numResults := out.numResults, fileMatch := some fm' }, [])

/-- From RipgrepParser.handleMatchLine: strip the BOM on line zero; when no
file header was seen synthesize one from the first extra search file, and
throw (here: freeze the parser) when there is none. -/
def handleMatchLine (cfg : Config) (core : Core) (lineNum : Int) (text0 : List Char) :
    Core × List RgEvent :=
  let text := if lineNum = 0 then stripUTF8BOM text0 else text0
  match core.fileMatch with
  | none =>
    match cfg.extraSearchFiles.head? with
    | none => ({ core with errored := true }, [])
    | some singleFile =>
      handleMatchLineGo cfg { core with fileMatch := some (getFileMatch cfg singleFile) }
        lineNum text
  | some _ => handleMatchLineGo cfg core lineNum text

/-- One iteration of the line loop in RipgrepParser.handleDecodedData: trim
the line, stop when done, try the result pattern first (converting to a
0-based line number and restoring a match end marker after a trailing CR),
then the file pattern (flushing the previous file match), else ignore the
line. -/
def processLine (cfg : Config) (core : Core) (line : List Char) : Core × List RgEvent :=
  let outputLine := jsTrimL line
  if core.errored then (core, [])
  else if core.isDone then (core, [])
  else
    match resultRegexMatch outputLine with
    | some r =>
      let lineNum : Int := (r.lineNumber : Int) - 1
      let matchText := if r.trailingCR then r.text ++ matchEndMarker else r.text
      handleMatchLine cfg core lineNum matchText
    | none =>
      match fileRegexMatch outputLine with
      | some p =>
        match core.fileMatch with
        | some fm =>
          ({ core with fileMatch := some (getFileMatch cfg p) },
            [RgEvent.result fm.serialize])
        | none => ({ core with fileMatch := some (getFileMatch cfg p) }, [])
      | none => (core, [])

/-- The line loop of handleDecodedData, collecting the emitted events in
order. -/
def processLines (cfg : Config) : Core → List (List Char) → Core × List RgEvent
  | core, [] => (core, [])
  | core, l :: ls =>
    let r1 := processLine cfg core l
    let r2 := processLines cfg r1.1 ls
    (r2.1, r1.2 ++ r2.2)

/-- Model of the split on the pattern CRLF-or-LF in handleDecodedData. -/
def splitLinesL : List Char → List (List Char)
  | [] => [[]]
  | '\r' :: '\n' :: rest => [] :: splitLinesL rest
  | '\n' :: rest => [] :: splitLinesL rest
  | c :: rest =>
    match splitLinesL rest with
    | [] => [[c]]
    | l :: ls => (c :: l) :: ls

/-- From RipgrepParser.handleDecodedData: join the carried-over remainder
with the chunk, split on CRLF-or-LF, carry a nonempty last element forward
as the new remainder (an empty one stays in the line list and the remainder
becomes null, modelled as the empty list), and process the remaining lines. -/
def handleDecodedData (cfg : Config) (remainder : List Char) (core : Core)
    (decodedData : List Char) : List Char × Core × List RgEvent :=
  let dataStr := remainder ++ decodedData
  let dataLines := splitLinesL dataStr
  let lastLine := (dataLines.getLast?).getD []
  if lastLine.isEmpty then
    let r := processLines cfg core dataLines
    ([], r.1, r.2)
  else
    let r := processLines cfg core dataLines.dropLast
    (lastLine, r.1, r.2)

/-- From RipgrepParser.handleData: the streaming decoder is the identity on
already-decoded data, so a chunk goes straight to handleDecodedData. -/
def handleData (cfg : Config) (remainder : List Char) (core : Core)
    (data : List Char) : List Char × Core × List RgEvent :=
  handleDecodedData cfg remainder core data

/-- From RipgrepParser.cancel: set the isDone flag. -/
def cancel (core : Core) : Core :=
  { core with isDone := true }

/-- From RipgrepParser.flush: feed the decoder tail (empty for decoded
input) through handleDecodedData, then emit the pending file match if one
exists. -/
def flush (cfg : Config) (remainder : List Char) (core : Core) :
    List Char × Core × List RgEvent :=
  let r := handleDecodedData cfg remainder core []
  match r.2.1.fileMatch with
  | some fm =>
    (r.1, { r.2.1 with fileMatch := none }, r.2.2 ++ [RgEvent.result fm.serialize])
  | none => r

/-- Feed a list of stdout chunks to the parser one data event at a time. -/
def feedChunks (cfg : Config) : List Char → Core → List (List Char) →
    List Char × Core × List RgEvent
  | remainder, core, [] => (remainder, core, [])
  | remainder, core, chunk :: chunks =>
    let r1 := handleDecodedData cfg remainder core chunk
    let r2 := feedChunks cfg r1.1 r1.2.1 chunks
    (r2.1, r2.2.1, r1.2.2 ++ r2.2.2)

/-- Feed the chunks to a fresh parser and flush, as the engine does when the
child closes; the result is the final core and the full event sequence. -/
def runAndFlush (cfg : Config) (chunks : List (List Char)) : Core × List RgEvent :=
  let r := feedChunks cfg [] {} chunks
  let f := flush cfg r.1 r.2.1
  (f.2.1, r.2.2 ++ f.2.2)

lemma splitLinesL_ne_nil (a : List Char) : splitLinesL a ≠ [] := by
  induction a using splitLinesL.induct with
  | case1 => simp [splitLinesL]
  | case2 rest ih => simp [splitLinesL]
  | case3 rest ih => simp [splitLinesL]
  | case4 c rest h1 h2 hsplit ih => exact absurd hsplit ih
  | case5 c rest h1 h2 l ls hsplit ih =>
    rw [splitLinesL.eq_4 c rest h1 h2, hsplit]
    simp

lemma splitLinesL_eq_single (a l : List Char) (h : splitLinesL a = [l]) : l = a := by
  induction a using splitLinesL.induct generalizing l with
  | case1 => simp [splitLinesL] at h; exact h
  | case2 rest ih =>
    rw [splitLinesL.eq_2] at h
    cases h' : splitLinesL rest with
    | nil => exact absurd h' (splitLinesL_ne_nil rest)
    | cons x xs => rw [h'] at h; cases h
  | case3 rest ih =>
    rw [splitLinesL.eq_3] at h
    cases h' : splitLinesL rest with
    | nil => exact absurd h' (splitLinesL_ne_nil rest)
    | cons x xs => rw [h'] at h; cases h
  | case4 c rest h1 h2 hsplit ih => exact absurd hsplit (splitLinesL_ne_nil rest)
  | case5 c rest h1 h2 l0 ls0 hsplit ih =>
    rw [splitLinesL.eq_4 c rest h1 h2, hsplit] at h
    cases ls0 with
    | nil =>
      injection h with h3 h4
      have := ih l0 hsplit
      rw [← h3, this]
    | cons y ys => cases h

lemma splitLinesL_append (a b : List Char) :
    splitLinesL (a ++ b) =
      (splitLinesL a).dropLast ++
        splitLinesL (((splitLinesL a).getLast?).getD [] ++ b) := by
  induction a using splitLinesL.induct with
  | case1 => simp [splitLinesL]
  | case2 rest ih =>
    cases hL : splitLinesL rest with
    | nil => exact absurd hL (splitLinesL_ne_nil rest)
    | cons l ls =>
      simp only [List.cons_append, splitLinesL.eq_2, List.append_eq]
      rw [ih, hL]
      simp
  | case3 rest ih =>
    cases hL : splitLinesL rest with
    | nil => exact absurd hL (splitLinesL_ne_nil rest)
    | cons l ls =>
      simp only [List.cons_append, splitLinesL.eq_3, List.append_eq]
      rw [ih, hL]
      simp
  | case4 c rest h1 h2 hsplit ih => exact absurd hsplit (splitLinesL_ne_nil rest)
  | case5 c rest h1 h2 l ls hsplit ih =>
    cases rest with
    | nil =>
      rw [splitLinesL.eq_4 c [] h1 h2]
      simp [splitLinesL]
    | cons a2 rest' =>
      have hcr : ∀ r', c = '\r' → (a2 :: rest') ++ b = '\n' :: r' → False := by
        intro r' hc he
        rw [List.cons_append] at he
        injection he with he1 he2
        exact h1 rest' hc (by rw [he1])
      rw [List.cons_append, splitLinesL.eq_4 c ((a2 :: rest') ++ b) hcr h2,
        splitLinesL.eq_4 c (a2 :: rest') h1 h2, ih, hsplit]
      cases ls with
      | nil =>
        have hl : l = a2 :: rest' := splitLinesL_eq_single _ _ hsplit
        have hcr2 : ∀ r', c = '\r' → l ++ b = '\n' :: r' → False := by
          intro r' hc he
          rw [hl, List.cons_append] at he
          injection he with he1 he2
          exact h1 rest' hc (by rw [he1])
        simp only [List.dropLast_single, List.nil_append, List.getLast?_singleton,
          Option.getD_some, List.cons_append, splitLinesL.eq_4 c (l ++ b) hcr2 h2]
      | cons l2 ls' =>
        cases hL2 : splitLinesL ((l2 :: ls').getLast?.getD [] ++ b) with
        | nil => exact absurd hL2 (splitLinesL_ne_nil _)
        | cons m ms =>
          simp [hL2, List.getLast?_cons_cons]

lemma resultRegexMatch_nil : resultRegexMatch [] = none := by decide

lemma fileRegexMatch_nil : fileRegexMatch [] = none := by decide

lemma processLine_nil (cfg : Config) (core : Core) :
    processLine cfg core [] = (core, []) := by
  have ht : jsTrimL [] = [] := rfl
  by_cases h1 : core.errored = true
  · simp [processLine, h1]
  · by_cases h2 : core.isDone = true
    · simp [processLine, h1, h2]
    · simp [processLine, h1, h2, ht, resultRegexMatch_nil, fileRegexMatch_nil]

lemma processLines_append (cfg : Config) (A B : List (List Char)) :
    ∀ core, processLines cfg core (A ++ B) =
      ((processLines cfg (processLines cfg core A).1 B).1,
        (processLines cfg core A).2 ++
          (processLines cfg (processLines cfg core A).1 B).2) := by
  induction A with
  | nil => intro core; simp [processLines]
  | cons l ls ih =>
    intro core
    simp only [List.cons_append, processLines, List.append_eq, ih, List.append_assoc]

lemma processLines_nil_line (cfg : Config) (core : Core) :
    processLines cfg core [[]] = (core, []) := by
  simp [processLines, processLine_nil]

lemma handleDecodedData_char (cfg : Config) (rem : List Char) (core : Core)
    (chunk : List Char) :
    handleDecodedData cfg rem core chunk =
      (((splitLinesL (rem ++ chunk)).getLast?).getD [],
        (processLines cfg core ((splitLinesL (rem ++ chunk)).dropLast)).1,
        (processLines cfg core ((splitLinesL (rem ++ chunk)).dropLast)).2) := by
  have hL1ne := splitLinesL_ne_nil (rem ++ chunk)
  cases ht1 : ((splitLinesL (rem ++ chunk)).getLast?).getD [] with
  | nil =>
    have hlast : (splitLinesL (rem ++ chunk)).getLast? = some [] := by
      cases h : (splitLinesL (rem ++ chunk)).getLast? with
      | none => exact absurd (List.getLast?_eq_none_iff.mp h) hL1ne
      | some x => rw [h] at ht1; simp at ht1; rw [ht1]
    have hdecomp := List.dropLast_append_getLast? [] hlast
    have hproc : processLines cfg core (splitLinesL (rem ++ chunk)) =
        processLines cfg core ((splitLinesL (rem ++ chunk)).dropLast) := by
      conv_lhs => rw [← hdecomp]
      rw [processLines_append]
      simp [processLines_nil_line]
    simp [handleDecodedData, ht1, hproc]
  | cons x xs =>
    simp [handleDecodedData, ht1]

lemma handleDecodedData_split (cfg : Config) (rem : List Char) (core : Core)
    (c1 c2 : List Char) :
    handleDecodedData cfg rem core (c1 ++ c2) =
      ((handleDecodedData cfg (handleDecodedData cfg rem core c1).1
          (handleDecodedData cfg rem core c1).2.1 c2).1,
        (handleDecodedData cfg (handleDecodedData cfg rem core c1).1
          (handleDecodedData cfg rem core c1).2.1 c2).2.1,
        (handleDecodedData cfg rem core c1).2.2 ++
          (handleDecodedData cfg (handleDecodedData cfg rem core c1).1
            (handleDecodedData cfg rem core c1).2.1 c2).2.2) := by
  rw [handleDecodedData_char cfg rem core c1]
  rw [handleDecodedData_char cfg _ _ c2]
  rw [handleDecodedData_char cfg rem core (c1 ++ c2)]
  have hL2ne := splitLinesL_ne_nil ((((splitLinesL (rem ++ c1)).getLast?).getD []) ++ c2)
  have hassoc : rem ++ (c1 ++ c2) = (rem ++ c1) ++ c2 := by rw [List.append_assoc]
  rw [hassoc, splitLinesL_append (rem ++ c1) c2]
  rw [List.getLast?_append_of_ne_nil _ hL2ne,
    List.dropLast_append_of_ne_nil _ hL2ne,
    processLines_append]

lemma feedChunks_cons_eq (cfg : Config) :
    ∀ (chunks : List (List Char)) (rem : List Char) (core : Core) (c : List Char),
      feedChunks cfg rem core (c :: chunks) =
        handleDecodedData cfg rem core (c ++ chunks.flatten) := by
  intro chunks
  induction chunks with
  | nil =>
    intro rem core c
    simp [feedChunks]
  | cons c2 cs ih =>
    intro rem core c
    show (let r1 := handleDecodedData cfg rem core c
          let r2 := feedChunks cfg r1.1 r1.2.1 (c2 :: cs)
          (r2.1, r2.2.1, r1.2.2 ++ r2.2.2)) = _
    simp only [ih]
    rw [List.flatten_cons, ← List.append_assoc, ← handleDecodedData_split,
      List.append_assoc]

lemma processLines_inactive (cfg : Config) (core : Core)
    (h : core.isDone = true ∨ core.errored = true) :
    ∀ ls, processLines cfg core ls = (core, []) := by
  have hline : ∀ l, processLine cfg core l = (core, []) := by
    intro l
    rcases h with h | h
    · by_cases he : core.errored = true
      · simp [processLine, he]
      · simp [processLine, he, h]
    · simp [processLine, h]
  intro ls
  induction ls with
  | nil => rfl
  | cons l ls ih => simp [processLines, hline, ih]

end RipgrepParser

/-- C6.  The grep output parser is insensitive to chunk boundaries: for
every decoded output string and every partition of it into chunks, feeding
the chunks one data event at a time and then flushing produces exactly the
same final parser state and the same sequence of file matches and ranges as
feeding the whole string as one chunk. -/
theorem C6_parser_chunk_invariance (cfg : RipgrepParser.Config)
    (chunks : List (List Char)) :
    RipgrepParser.runAndFlush cfg chunks =
      RipgrepParser.runAndFlush cfg [chunks.flatten] := by
  cases chunks with
  | nil =>
    show RipgrepParser.runAndFlush cfg [] = RipgrepParser.runAndFlush cfg [[]]
    simp [RipgrepParser.runAndFlush, RipgrepParser.feedChunks,
      RipgrepParser.handleDecodedData_char, RipgrepParser.processLines,
      RipgrepParser.processLine_nil, RipgrepParser.splitLinesL]
  | cons c cs =>
    unfold RipgrepParser.runAndFlush
    rw [RipgrepParser.feedChunks_cons_eq, List.flatten_cons]
    rw [show RipgrepParser.feedChunks cfg [] {} [c ++ cs.flatten] =
      RipgrepParser.handleDecodedData cfg [] {} ((c ++ cs.flatten) ++ []) from
        RipgrepParser.feedChunks_cons_eq cfg [] [] {} (c ++ cs.flatten)]
    rw [List.append_nil]

/-- C3, counterexample.  A file header and a match line arrive, leaving the
file match pending; then the search is cancelled; when the child closes the
parser is flushed, and the flush still emits the pending match on the
progress stream: a match item is emitted after cancellation. -/
theorem C3_counterexample :
    (RipgrepParser.flush { rootFolder := "/".data } [] (RipgrepParser.cancel
      (RipgrepParser.handleData { rootFolder := "/".data } []
        ({} : RipgrepParser.Core)
        ("\x1b[0mfile.txt\x1b[0m\n\x1b[0m1\x1b[0m:a\x1b[0m\x1b[31mb\x1b[0mc\n").data).2.1)).2.2 =
    [RipgrepParser.RgEvent.result ⟨"/file.txt".data,
      [⟨"abc".data, ⟨0, 1, 0, 2⟩⟩], 1⟩] := by
  decide

/-- C3, amended.  After cancellation the parser emits nothing for any
further stdout data (the line loop halts on isDone); only the flush that
runs when the child closes can still emit the single file match left
pending at cancellation time. -/
theorem C3_no_data_events_after_cancel (cfg : RipgrepParser.Config)
    (rem : List Char) (core : RipgrepParser.Core) (chunk : List Char) :
    (RipgrepParser.handleData cfg rem (RipgrepParser.cancel core) chunk).2.2 = [] := by
  show (RipgrepParser.handleDecodedData cfg rem (RipgrepParser.cancel core) chunk).2.2 = []
  rw [RipgrepParser.handleDecodedData_char]
  rw [RipgrepParser.processLines_inactive cfg (RipgrepParser.cancel core) (Or.inl rfl)]

/-! ## The directory tree (fileSearch.ts, C9) -/

/-- Modelled from the spec: node path.basename for the forward-slash
relative paths used here. -/
def pathBasename (p : String) : String :=
  ⟨(p.data.reverse.takeWhile (fun c => c != '/')).reverse⟩

/-- Modelled from the spec: node path.dirname for the forward-slash relative
paths used here; a path without separator has dirname dot. -/
def pathDirname (p : String) : String :=
  match p.data.reverse.dropWhile (fun c => c != '/') with
  | [] => "."
  | _ :: [] => "/"
  | _ :: rest => ⟨rest.reverse⟩

/-- IDirectoryEntry (fileSearch.ts) has exactly the fields of a raw file
match, and entries are handed to matchFile directly. -/
abbrev IDirectoryEntry := IRawFileMatch

/-- IDirectoryTree (fileSearch.ts): the mapping from relative directory path
to its entries, in insertion order; the root entries sit at the dot key. -/
structure IDirectoryTree where
  pathToEntries : List (String × List IDirectoryEntry)
deriving Repr, DecidableEq

/-- From FileWalker.initDirectoryTree. -/
def initDirectoryTree : IDirectoryTree := ⟨[(".", [])]⟩

/-- Read a key of pathToEntries. -/
def lookupEntries (tree : IDirectoryTree) (k : String) : Option (List IDirectoryEntry) :=
  (tree.pathToEntries.find? (fun kv => kv.1 == k)).map (·.2)

/-- Write a key of pathToEntries, keeping insertion order. -/
def setEntries (tree : IDirectoryTree) (k : String) (v : List IDirectoryEntry) :
    IDirectoryTree :=
  if (tree.pathToEntries.find? (fun kv => kv.1 == k)).isSome then
    ⟨tree.pathToEntries.map (fun kv => if kv.1 == k then (kv.1, v) else kv)⟩
  else ⟨tree.pathToEntries ++ [(k, v)]⟩

/-- The add closure inside FileWalker.addDirectoryEntries: ensure the entry
list of the parent directory exists (creating the ancestor chain) and push
the entry.  The fuel bounds the dirname chain, which shortens at every
step; path length plus one is always enough. -/
def treeAdd (base : String) : Nat → IDirectoryTree → String → IDirectoryTree
  | 0, tree, _ => tree
  | fuel + 1, tree, relativePath =>
    let basename := pathBasename relativePath
    let dirname := pathDirname relativePath
    match lookupEntries tree dirname with
    | some entries =>
      setEntries tree dirname (entries ++ [⟨base, relativePath, basename⟩])
    | none =>
      let tree1 := setEntries tree dirname []
      let tree2 := treeAdd base fuel tree1 dirname
      setEntries tree2 dirname ((lookupEntries tree2 dirname).getD [] ++
        [⟨base, relativePath, basename⟩])

/-- From FileWalker.addDirectoryEntries: a file whose relative path equals
the literal file pattern is matched directly, ignoring excludes; then every
streamed path is added to the tree. -/
def addDirectoryEntries (cfg : WalkerConfig) (st : WalkerState)
    (tree : IDirectoryTree) (base : String) (relativeFiles : List String) :
    WalkerState × IDirectoryTree :=
  let st :=
    if relativeFiles.contains cfg.filePattern then
      matchFile cfg st ⟨base, cfg.filePattern, pathBasename cfg.filePattern⟩
    else st
  (st, relativeFiles.foldl (fun t p => treeAdd base (p.length + 1) t p) tree)

mutual

/-- The matchDirectory closure of FileWalker.matchDirectoryTree: compute the
sibling lookup from the directory's entries and loop over them.  The fuel
bounds the descent depth. -/
def matchDirectory (cfg : WalkerConfig)
    (excludeTest : String → String → Option (String → Bool) → Bool)
    (tree : IDirectoryTree)
    (fuel : Nat) (st : WalkerState) (entries : List IDirectoryEntry) : WalkerState :=
  match fuel with
  | 0 => st
  | fuel' + 1 =>
    let hasSibling : String → Bool :=
      fun name => (entries.map (·.basename)).contains name
    mdGo cfg excludeTest tree hasSibling fuel' st entries
termination_by (fuel, 0)

/-- The entry loop of matchDirectory: skip excluded entries (the sibling
lookup is withheld when the entry's basename equals the file pattern),
recurse into directories, skip the file whose path equals the file pattern
(already matched by addDirectoryEntries), match the rest, and stop once the
limit is hit. -/
def mdGo (cfg : WalkerConfig)
    (excludeTest : String → String → Option (String → Bool) → Bool)
    (tree : IDirectoryTree) (hasSibling : String → Bool)
    (fuel : Nat) (st : WalkerState) (l : List IDirectoryEntry) : WalkerState :=
  match l with
  | [] => st
  | entry :: rest =>
    let st1 :=
      if excludeTest entry.relativePath entry.basename
          (if cfg.filePattern != entry.basename then some hasSibling else none) then st
      else
        match lookupEntries tree entry.relativePath with
        | some sub => matchDirectory cfg excludeTest tree fuel st sub
        | none =>
          if entry.relativePath = cfg.filePattern then st
          else matchFile cfg st entry
    if st1.isLimitHit then st1
    else mdGo cfg excludeTest tree hasSibling fuel st1 rest
termination_by (fuel, l.length + 1)

end

/-- From FileWalker.matchDirectoryTree: start the walk at the root entries. -/
def matchDirectoryTree (cfg : WalkerConfig)
    (excludeTest : String → String → Option (String → Bool) → Bool)
    (tree : IDirectoryTree) (fuel : Nat) (st : WalkerState) : WalkerState :=
  matchDirectory cfg excludeTest tree fuel st ((lookupEntries tree ".").getD [])

lemma fuzzySubseq_of_sublist :
    ∀ (t q : List Char), q.Sublist t → fuzzySubseq t q = true := by
  intro t
  induction t with
  | nil =>
    intro q h
    rw [List.sublist_nil.mp h]
    rfl
  | cons c ts ih =>
    intro q h
    cases q with
    | nil => rfl
    | cons qh qs =>
      cases h with
      | cons _ h' =>
        show (if c == qh then fuzzySubseq ts qs else fuzzySubseq ts (qh :: qs)) = true
        by_cases hc : c = qh
        · have hqs : qs.Sublist ts := ((qs.sublist_cons_self qh).trans h')
          simp [hc, ih qs hqs]
        · simp [hc, ih (qh :: qs) h']
      | cons₂ _ h' =>
        show (if c == c then fuzzySubseq ts qs else fuzzySubseq ts (c :: qs)) = true
        simp [ih qs h']

lemma stripWildcards_data (p : String) :
    (stripWildcards p).data = p.data.filter (fun c => c != '*') := rfl

lemma isFilePatternMatch_self (p : String) (hp : stripWildcards p ≠ "") :
    isFilePatternMatch { filePattern := p } p = true := by
  have hstrip_ne : (stripWildcards p).data ≠ [] := by
    intro h
    exact hp (String.ext h)
  have hpdata_ne : p.data ≠ [] := by
    intro h
    apply hp
    have hps : p = "" := String.ext h
    rw [hps]
    rfl
  have hpne : p ≠ "" := by
    intro h
    exact hpdata_ne (by rw [h])
  by_cases hstar : p = "*"
  · simp [isFilePatternMatch, hstar]
  · have hqdata : (toLowerStr (stripWildcards p)).data =
        (stripWildcards p).data.map Char.toLower := rfl
    have hsub : ((stripWildcards p).data.map Char.toLower).Sublist
        (p.data.map Char.toLower) := by
      rw [stripWildcards_data]
      exact (List.filter_sublist p.data).map Char.toLower
    simp only [isFilePatternMatch]
    rw [if_pos hpne, if_neg hstar]
    simp only [fuzzyContains, hqdata]
    have hc1 : (p.data.isEmpty ||
        ((stripWildcards p).data.map Char.toLower).isEmpty) = false := by
      simp [List.isEmpty_iff, hpdata_ne, hstrip_ne]
    have hlen := hsub.length_le
    simp only [List.length_map] at hlen
    have hc2 : ¬ p.data.length < ((stripWildcards p).data.map Char.toLower).length := by
      simp only [List.length_map]
      omega
    rw [hc1]
    simp only [Bool.false_eq_true, if_false]
    rw [if_neg hc2]
    exact fuzzySubseq_of_sublist _ _ hsub

lemma matchFile_countP (cfg : WalkerConfig) (st : WalkerState) (c : IRawFileMatch)
    (P : IRawFileMatch → Bool) (hc : P c = false) :
    (matchFile cfg st c).emitted.countP P = st.emitted.countP P := by
  by_cases hs : survives cfg c = true
  · simp only [matchFile, hs, if_true]
    split
    · simp [List.countP_append, List.countP_cons, hc]
    · rfl
  · have hs' : survives cfg c = false := by simpa using hs
    simp [matchFile, hs']

lemma mdGo_cons (cfg : WalkerConfig)
    (excludeTest : String → String → Option (String → Bool) → Bool)
    (tree : IDirectoryTree) (hasSibling : String → Bool) (fuel : Nat)
    (st : WalkerState) (entry : IDirectoryEntry) (rest : List IDirectoryEntry) :
    mdGo cfg excludeTest tree hasSibling fuel st (entry :: rest) =
      (let st1 :=
        if excludeTest entry.relativePath entry.basename
            (if cfg.filePattern != entry.basename then some hasSibling else none) then st
        else
          match lookupEntries tree entry.relativePath with
          | some sub => matchDirectory cfg excludeTest tree fuel st sub
          | none =>
            if entry.relativePath = cfg.filePattern then st
            else matchFile cfg st entry
       if st1.isLimitHit then st1
       else mdGo cfg excludeTest tree hasSibling fuel st1 rest) := by
  simp only [mdGo]

lemma walk_countP (cfg : WalkerConfig)
    (excludeTest : String → String → Option (String → Bool) → Bool)
    (tree : IDirectoryTree) :
    ∀ fuel : Nat,
      (∀ st entries,
        (matchDirectory cfg excludeTest tree fuel st entries).emitted.countP
            (fun e => e.relativePath == cfg.filePattern) =
          st.emitted.countP (fun e => e.relativePath == cfg.filePattern)) ∧
      (∀ (hasSibling : String → Bool) st l,
        (mdGo cfg excludeTest tree hasSibling fuel st l).emitted.countP
            (fun e => e.relativePath == cfg.filePattern) =
          st.emitted.countP (fun e => e.relativePath == cfg.filePattern)) := by
  intro fuel
  induction fuel using Nat.strong_induction_on with
  | _ fuel ih =>
    have hA : ∀ st entries,
        (matchDirectory cfg excludeTest tree fuel st entries).emitted.countP
            (fun e => e.relativePath == cfg.filePattern) =
          st.emitted.countP (fun e => e.relativePath == cfg.filePattern) := by
      intro st entries
      cases fuel with
      | zero => simp [matchDirectory]
      | succ fuel' =>
        simp only [matchDirectory]
        exact (ih fuel' (by omega)).2 _ st entries
    refine ⟨hA, ?_⟩
    intro hasSibling st l
    induction l generalizing st with
    | nil => simp [mdGo]
    | cons entry rest ihl =>
      rw [mdGo_cons]
      by_cases he : excludeTest entry.relativePath entry.basename
          (if cfg.filePattern != entry.basename then some hasSibling else none) = true
      · simp only [he, if_true]
        by_cases hl : st.isLimitHit = true
        · simp [hl]
        · have hl' : st.isLimitHit = false := by simpa using hl
          simp [hl', ihl st]
      · have he' : excludeTest entry.relativePath entry.basename
            (if cfg.filePattern != entry.basename then some hasSibling else none) = false := by
          simpa using he
        simp only [he', Bool.false_eq_true, if_false]
        cases hsub : lookupEntries tree entry.relativePath with
        | some sub =>
          simp only
          have hst1 := hA st sub
          by_cases hl : (matchDirectory cfg excludeTest tree fuel st sub).isLimitHit = true
          · simp [hl, hst1]
          · have hl' : (matchDirectory cfg excludeTest tree fuel st sub).isLimitHit = false := by
              simpa using hl
            rw [if_neg (by simp [hl'])]
            rw [ihl, hst1]
        | none =>
          simp only
          by_cases hp : entry.relativePath = cfg.filePattern
          · simp only [hp, if_pos rfl]
            by_cases hl : st.isLimitHit = true
            · simp [hl]
            · have hl' : st.isLimitHit = false := by simpa using hl
              simp [hl', ihl st]
          · rw [if_neg hp]
            have hcount := matchFile_countP cfg st entry
              (fun e => e.relativePath == cfg.filePattern) (by simp [hp])
            by_cases hl : (matchFile cfg st entry).isLimitHit = true
            · simp [hl, hcount]
            · have hl' : (matchFile cfg st entry).isLimitHit = false := by simpa using hl
              rw [if_neg (by simp [hl'])]
              rw [ihl, hcount]

/-- C9.  During directory-tree matching, a file whose relative path equals
the user's literal file pattern (a pattern that is not all wildcards) is
reported exactly once, for every exclude predicate, including
sibling-dependent excludes that would reject it: addDirectoryEntries matches
it upfront ignoring excludes, and the tree walk skips it. -/
theorem C9_literal_pattern_reported_once (pat base : String)
    (relativeFiles : List String)
    (excludeTest : String → String → Option (String → Bool) → Bool) (fuel : Nat)
    (hpat : stripWildcards pat ≠ "")
    (hmem : relativeFiles.contains pat = true) :
    let cfg : WalkerConfig := { filePattern := pat }
    let r := addDirectoryEntries cfg {} initDirectoryTree base relativeFiles
    (matchDirectoryTree cfg excludeTest r.2 fuel r.1).emitted.countP
      (fun e => e.relativePath == pat) = 1 := by
  intro cfg r
  have hsurv : survives cfg ⟨base, pat, pathBasename pat⟩ = true := by
    simp [survives, isFilePatternMatch_self pat hpat]
  have hmf : matchFile cfg {} ⟨base, pat, pathBasename pat⟩ =
      { resultCount := 1, isLimitHit := false,
        emitted := [⟨base, pat, pathBasename pat⟩] } := by
    simp [matchFile, hsurv]
  have hr1 : r.1 = { resultCount := 1, isLimitHit := false,
                     emitted := [⟨base, pat, pathBasename pat⟩] } := by
    show (addDirectoryEntries cfg {} initDirectoryTree base relativeFiles).1 = _
    simp [addDirectoryEntries, hmem, hmf]
    simpa using hmem
  have hw := (walk_countP cfg excludeTest r.2 fuel).1 r.1
    ((lookupEntries r.2 ".").getD [])
  show (matchDirectory cfg excludeTest r.2 fuel r.1
    ((lookupEntries r.2 ".").getD [])).emitted.countP (fun e => e.relativePath == pat) = 1
  rw [hw, hr1]
  simp [List.countP_cons]

/-- C9, witness: a two-file listing containing the literal pattern, walked
with an exclude predicate that rejects everything, still reports the
pattern file exactly once. -/
theorem C9_literal_pattern_witness :
    stripWildcards "a.js" ≠ "" ∧ (["a.js", "b.js"].contains "a.js") = true ∧
      (let cfg : WalkerConfig := { filePattern := "a.js" }
       let r := addDirectoryEntries cfg {} initDirectoryTree "/fx" ["a.js", "b.js"]
       (matchDirectoryTree cfg (fun _ _ _ => true) r.2 5 r.1).emitted.countP
         (fun e => e.relativePath == "a.js") = 1) :=
  ⟨by decide, by decide,
    C9_literal_pattern_reported_once "a.js" "/fx" ["a.js", "b.js"]
      (fun _ _ _ => true) 5 (by decide) (by decide)⟩

/-! ## The text-search engine entry (ripgrepTextSearch.ts, C10) -/

/-- The fields of IRawSearch consulted by RipgrepEngine.search before a
child process could be spawned. -/
structure TextSearchConfig where
  folderQueries : List String := []
  extraFiles : List String := []
  maxResults : Option Nat := none
deriving Repr, DecidableEq

/-- How RipgrepEngine.search starts: either the immediate completion (with
the match items emitted before it, and the limit flag of the success
terminal), or a spawn of the ripgrep child for the query. -/
inductive RgSearchStart where
  | immediateSuccess (limitHit : Bool) (emitted : List RipgrepParser.ISerializedFileMatch)
  | spawnChild (cfg : TextSearchConfig)
deriving Repr, DecidableEq

/-- From RipgrepEngine.search: a query with no folder queries and no extra
files calls done at once with the success terminal, limitHit false and no
match emitted, and never spawns a child; any other query spawns ripgrep. -/
def ripgrepEngineSearch (cfg : TextSearchConfig) : RgSearchStart :=
  if cfg.folderQueries.isEmpty && cfg.extraFiles.isEmpty then
    RgSearchStart.immediateSuccess false []
  else RgSearchStart.spawnChild cfg

/-- C10.  For every text-search query whose folder-query list and
extra-files list are both empty, the engine spawns no child process, emits
no match item, and immediately reports a success terminal with the limit
flag clear. -/
theorem C10_empty_query_immediate_success (maxR : Option Nat) :
    ripgrepEngineSearch { folderQueries := [], extraFiles := [], maxResults := maxR } =
      RgSearchStart.immediateSuccess false [] := rfl

end VscodeSearch
